import Mathlib

/-!
Verification of the Specification/Filter mechanism in
`src/SOLID/OpenClosed/open_closed.py` and of the `Journal` entry list in
`src/SOLID/SingleResponsibility/single_responsibility.py`, as a shallow
embedding in Lean.
-/

namespace OpenClosed

/-- Embedding of `Color(Enum)` with members RED, GREEN, BLUE. -/
inductive Color where
  | RED
  | GREEN
  | BLUE
deriving DecidableEq, Repr

/-- Embedding of `Size(Enum)` with members SMALL, MEDIUM, LARGE. -/
inductive Size where
  | SMALL
  | MEDIUM
  | LARGE
deriving DecidableEq, Repr

/-- Embedding of the `Product` dataclass: a name, a color and a size. -/
structure Product where
  name : String
  color : Color
  size : Size
deriving DecidableEq, Repr

/-- Embedding of the `Specification` class hierarchy. The leaf classes
`ColorSpecification` and `SizeSpecification` capture one attribute value;
the combinators `AndSpecification`, `OrSpecification` and
`XorSpecification` each take an arbitrary tuple `*args` of child
specifications, embedded as a list. -/
inductive Specification where
  | ColorSpecification (color : Color)
  | SizeSpecification (size : Size)
  | AndSpecification (specs : List Specification)
  | OrSpecification (specs : List Specification)
  | XorSpecification (specs : List Specification)

/-- Python's `any` over a one-shot iterator of booleans: it consumes
elements until the first `True` (returning the unconsumed remainder), or
consumes everything and returns `False`. This models the fact that in
`XorSpecification.is_satisfied` the iterator `satisfied = map(...)` is
shared between the two `any(...)` calls. -/
def anyConsume : List Bool → Bool × List Bool
  | [] => (false, [])
  | b :: rest => if b then (true, rest) else anyConsume rest

/-- The expression `any(satisfied) and not any(satisfied)` from
`XorSpecification.is_satisfied`, evaluated over the shared one-shot
iterator whose pending elements are `bs`: the first `any` consumes up to
and including the first `True`; the second `any` then runs over whatever
the first one left unconsumed. -/
def pyXor (bs : List Bool) : Bool :=
  let r := anyConsume bs
  r.1 && !(r.2.any id)

mutual

/-- Embedding of `Specification.is_satisfied` across all five concrete
classes. Leaves compare the item's attribute with the captured value
(`item.color is self.color`, `item.size is self.size`); `AndSpecification`
is `all(map(...))`, `OrSpecification` is `any(map(...))`, and
`XorSpecification` is `any(satisfied) and not any(satisfied)` over the
single shared iterator `satisfied = map(...)`. -/
def is_satisfied : Specification → Product → Bool
  | Specification.ColorSpecification c, item => item.color == c
  | Specification.SizeSpecification s, item => item.size == s
  | Specification.AndSpecification specs, item => (mapSat specs item).all id
  | Specification.OrSpecification specs, item => (mapSat specs item).any id
  | Specification.XorSpecification specs, item => pyXor (mapSat specs item)

/-- `map(lambda spec: spec.is_satisfied(item), specs)`, materialized in
order. -/
def mapSat : List Specification → Product → List Bool
  | [], _ => []
  | s :: rest, item => is_satisfied s item :: mapSat rest item

end

/-- Embedding of `Specification.__and__`: returns
`AndSpecification(self, other)`. -/
def Specification.and_op (self other : Specification) : Specification :=
  Specification.AndSpecification [self, other]

/-- Embedding of `Specification.__or__`: returns
`OrSpecification(self, other)`. -/
def Specification.or_op (self other : Specification) : Specification :=
  Specification.OrSpecification [self, other]

/-- Embedding of `Specification.__xor__`: returns
`XorSpecification(self, other)`. -/
def Specification.xor_op (self other : Specification) : Specification :=
  Specification.XorSpecification [self, other]

/-- The tuple of child specifications `self._specs` of a combinator
(empty for the leaf specifications, which store none). -/
def Specification.children : Specification → List Specification
  | Specification.AndSpecification specs => specs
  | Specification.OrSpecification specs => specs
  | Specification.XorSpecification specs => specs
  | _ => []

/-- Embedding of `BetterFilter.filter`: iterate over `items` and yield
each item for which `spec.is_satisfied(item)` holds. -/
def betterFilter : List Product → Specification → List Product
  | [], _ => []
  | item :: rest, spec =>
      if is_satisfied spec item then item :: betterFilter rest spec
      else betterFilter rest spec

/-- Embedding of `ProductFilter.filter_by_color`: yield each item whose
color is the given color. -/
def filter_by_color : List Product → Color → List Product
  | [], _ => []
  | item :: rest, color =>
      if item.color == color then item :: filter_by_color rest color
      else filter_by_color rest color

/-- Embedding of `ProductFilter.filter_by_size`: yield each item whose
size is the given size. -/
def filter_by_size : List Product → Size → List Product
  | [], _ => []
  | item :: rest, size =>
      if item.size == size then item :: filter_by_size rest size
      else filter_by_size rest size

/-- Embedding of `ProductFilter.filter_by_size_and_color`: yield each
item for which `item.color is color and item.size is size`. -/
def filter_by_size_and_color : List Product → Size → Color → List Product
  | [], _, _ => []
  | item :: rest, size, color =>
      if item.color == color && item.size == size then
        item :: filter_by_size_and_color rest size color
      else filter_by_size_and_color rest size color

/-- `BetterFilter.filter` with the iteration over `items` made explicit
as state: the first component is the sequence of yielded items, the
second is the items collection as the loop leaves it (the loop only
reads it). -/
def filterRun : List Product → Specification → List Product × List Product
  | [], _ => ([], [])
  | item :: rest, spec =>
      let r := filterRun rest spec
      (if is_satisfied spec item then item :: r.1 else r.1, item :: r.2)

end OpenClosed

namespace SingleResponsibility

/-- Embedding of `Journal.add_entry`: appends `f"{text}"` (the text
itself) to the entries list. -/
def add_entry (entries : List String) (text : String) : List String :=
  entries ++ [text]

/-- Embedding of `Journal.remove_entry`: `del self.entries[entry_num - 1]`,
for 1-based entry numbers within range. -/
def remove_entry (entries : List String) (entry_num : Nat) : List String :=
  entries.eraseIdx (entry_num - 1)

end SingleResponsibility

open OpenClosed SingleResponsibility

/-- Helper: `anyConsume` never returns `true` without having seen a
`true`; spelled as the characterization of `pyXor`: the shared-iterator
expression `any(satisfied) and not any(satisfied)` is `true` exactly when
the boolean list contains exactly one `true`. -/
theorem pyXor_eq_true_iff (bs : List Bool) : pyXor bs = true ↔ bs.count true = 1 := by
  induction bs with
  | nil => simp [pyXor, anyConsume]
  | cons b rest ih =>
    cases b with
    | true =>
      simp [pyXor, anyConsume, List.count_cons, List.any_eq_false, List.count_eq_zero]
    | false =>
      simpa [pyXor, anyConsume, List.count_cons] using ih

/-- Helper: `mapSat` is the list of the children's verdicts, in order. -/
theorem mapSat_eq_map (specs : List Specification) (item : Product) :
    mapSat specs item = specs.map (fun s => is_satisfied s item) := by
  induction specs with
  | nil => rfl
  | cons s rest ih => simp [mapSat, ih]

/-- Helper: counting `true` in a mapped boolean list counts the elements
satisfying the predicate. -/
theorem count_true_map {α : Type} (f : α → Bool) (l : List α) :
    (l.map f).count true = l.countP f := by
  induction l with
  | nil => rfl
  | cons a rest ih => simp [List.count_cons, List.countP_cons, ih]

/-- Claim C1: for every tuple of child specifications and every item,
`XorSpecification.is_satisfied(item)` returns true iff exactly one child
specification is satisfied by the item; with zero children it returns
false. -/
theorem xorSpecification_is_exactly_one (specs : List Specification) (item : Product) :
    (is_satisfied (Specification.XorSpecification specs) item = true ↔
      specs.countP (fun s => is_satisfied s item) = 1) ∧
    is_satisfied (Specification.XorSpecification ([] : List Specification)) item = false := by
  refine ⟨?_, rfl⟩
  show pyXor (mapSat specs item) = true ↔ _
  rw [mapSat_eq_map, pyXor_eq_true_iff, count_true_map]

/-- Claim C2, counterexample: the claim asserts
`XorSpecification.is_satisfied` returns false on every input, but on a
single GREEN-color child specification and a GREEN apple it returns
true (the `map` iterator is shared between the two `any` calls, so the
second `any` only scans what the first left unconsumed). -/
theorem xorSpecification_not_always_false :
    is_satisfied
        (Specification.XorSpecification [Specification.ColorSpecification Color.GREEN])
        { name := "Apple", color := Color.GREEN, size := Size.SMALL } = true := rfl

/-- Claim C2, amended: `XorSpecification.is_satisfied` is not always
false; `any(satisfied) and not any(satisfied)` over the shared one-shot
iterator returns false exactly when the number of satisfied children is
not one. -/
theorem xorSpecification_false_iff_not_one (specs : List Specification) (item : Product) :
    is_satisfied (Specification.XorSpecification specs) item = false ↔
      specs.countP (fun s => is_satisfied s item) ≠ 1 := by
  have h := pyXor_eq_true_iff (mapSat specs item)
  rw [mapSat_eq_map, count_true_map] at h
  rw [show is_satisfied (Specification.XorSpecification specs) item
      = pyXor (mapSat specs item) from rfl, mapSat_eq_map, Bool.eq_false_iff]
  exact not_congr h

/-- Claim C3: for every finite sequence of items and every specification,
`BetterFilter.filter(items, spec)` produces exactly the subsequence of
items satisfying the specification, in input order, with no item
duplicated and no satisfying item dropped. -/
theorem betterFilter_is_the_satisfying_subsequence (items : List Product)
    (spec : Specification) :
    betterFilter items spec = items.filter (fun i => is_satisfied spec i) ∧
    (betterFilter items spec).Sublist items ∧
    (∀ x : Product, x ∈ betterFilter items spec ↔
      x ∈ items ∧ is_satisfied spec x = true) := by
  have heq : betterFilter items spec = items.filter (fun i => is_satisfied spec i) := by
    induction items with
    | nil => rfl
    | cons i rest ih => simp only [betterFilter, List.filter_cons, ih]
  refine ⟨heq, ?_, ?_⟩
  · rw [heq]
    exact List.filter_sublist _
  · intro x
    rw [heq, List.mem_filter]

/-- Claim C4: `AndSpecification.is_satisfied(item)` is true iff every
child specification is satisfied; with zero children it is vacuously
true, so filtering by `AndSpecification()` returns all items. -/
theorem andSpecification_all_children (specs : List Specification) (item : Product)
    (items : List Product) :
    (is_satisfied (Specification.AndSpecification specs) item = true ↔
      ∀ s ∈ specs, is_satisfied s item = true) ∧
    betterFilter items (Specification.AndSpecification ([] : List Specification)) = items := by
  constructor
  · show (mapSat specs item).all id = true ↔ _
    rw [mapSat_eq_map]
    simp [List.all_eq_true]
  · induction items with
    | nil => rfl
    | cons i rest ih =>
      simp only [betterFilter, ih,
        show is_satisfied (Specification.AndSpecification ([] : List Specification)) i
          = true from rfl, if_true]

/-- Claim C5: `OrSpecification.is_satisfied(item)` is true iff at least
one child specification is satisfied; with zero children it is false, so
filtering by `OrSpecification()` returns no items. -/
theorem orSpecification_any_child (specs : List Specification) (item : Product)
    (items : List Product) :
    (is_satisfied (Specification.OrSpecification specs) item = true ↔
      ∃ s ∈ specs, is_satisfied s item = true) ∧
    betterFilter items (Specification.OrSpecification ([] : List Specification)) = [] := by
  constructor
  · show (mapSat specs item).any id = true ↔ _
    rw [mapSat_eq_map]
    simp [List.any_eq_true]
  · induction items with
    | nil => rfl
    | cons i rest ih =>
      simp only [betterFilter, ih,
        show is_satisfied (Specification.OrSpecification ([] : List Specification)) i
          = false from rfl, if_false]
      rw [if_neg]
      simp

/-- Claim C6: each composition operator returns a new composite
specification whose children are exactly the two operands in order;
the operands themselves appear unchanged as those children (nothing is
mutated in this pure embedding). -/
theorem composition_operators_wrap_operands (a b : Specification) :
    a.and_op b = Specification.AndSpecification [a, b] ∧
    a.or_op b = Specification.OrSpecification [a, b] ∧
    a.xor_op b = Specification.XorSpecification [a, b] ∧
    (a.and_op b).children = [a, b] ∧
    (a.or_op b).children = [a, b] ∧
    (a.xor_op b).children = [a, b] :=
  ⟨rfl, rfl, rfl, rfl, rfl, rfl⟩

/-- Claim C7: the two-child AND, OR and XOR combinators are commutative
in their children's truth values, and AND and OR are associative under
regrouping of children. -/
theorem combinators_commutative_associative (a b c : Specification) (i : Product) :
    is_satisfied (Specification.AndSpecification [a, b]) i
      = is_satisfied (Specification.AndSpecification [b, a]) i ∧
    is_satisfied (Specification.OrSpecification [a, b]) i
      = is_satisfied (Specification.OrSpecification [b, a]) i ∧
    is_satisfied (Specification.XorSpecification [a, b]) i
      = is_satisfied (Specification.XorSpecification [b, a]) i ∧
    is_satisfied
        (Specification.AndSpecification [Specification.AndSpecification [a, b], c]) i
      = is_satisfied
        (Specification.AndSpecification [a, Specification.AndSpecification [b, c]]) i ∧
    is_satisfied
        (Specification.OrSpecification [Specification.OrSpecification [a, b], c]) i
      = is_satisfied
        (Specification.OrSpecification [a, Specification.OrSpecification [b, c]]) i := by
  have hand : ∀ s t : Specification, is_satisfied (Specification.AndSpecification [s, t]) i
      = (is_satisfied s i && is_satisfied t i) := by
    intro s t
    show (mapSat [s, t] i).all id = _
    simp [mapSat]
  have hor : ∀ s t : Specification, is_satisfied (Specification.OrSpecification [s, t]) i
      = (is_satisfied s i || is_satisfied t i) := by
    intro s t
    show (mapSat [s, t] i).any id = _
    simp [mapSat]
  have hxor : ∀ s t : Specification, is_satisfied (Specification.XorSpecification [s, t]) i
      = Bool.xor (is_satisfied s i) (is_satisfied t i) := by
    intro s t
    show pyXor (mapSat [s, t] i) = _
    simp only [mapSat]
    cases is_satisfied s i <;> cases is_satisfied t i <;> rfl
  refine ⟨?_, ?_, ?_, ?_, ?_⟩
  · rw [hand, hand, Bool.and_comm]
  · rw [hor, hor, Bool.or_comm]
  · rw [hxor, hxor, Bool.xor_comm]
  · rw [hand, hand, hand, hand, Bool.and_assoc]
  · rw [hor, hor, hor, hor, Bool.or_assoc]

/-- Claim C8: `is_satisfied` is deterministic (two evaluations on the
same specification and item agree, the XOR iterator being rebuilt afresh
on each call), and `BetterFilter.filter` is a pure function of
(items, spec): its loop leaves the items collection unchanged, and a
second run over that collection yields the same output sequence. -/
theorem evaluation_pure_and_deterministic (spec : Specification) (items : List Product)
    (i : Product) :
    is_satisfied spec i = is_satisfied spec i ∧
    (filterRun items spec).2 = items ∧
    (filterRun items spec).1 = betterFilter items spec ∧
    (filterRun (filterRun items spec).2 spec).1 = (filterRun items spec).1 := by
  have h2 : ∀ l : List Product, (filterRun l spec).2 = l := by
    intro l
    induction l with
    | nil => rfl
    | cons x rest ih => simp [filterRun, ih]
  have h1 : ∀ l : List Product, (filterRun l spec).1 = betterFilter l spec := by
    intro l
    induction l with
    | nil => rfl
    | cons x rest ih => simp [filterRun, betterFilter, ih]
  exact ⟨rfl, h2 items, h1 items, by rw [h2 items]⟩

/-- Claim C9: each old-style `ProductFilter` method yields the same
sequence as `BetterFilter.filter` with the corresponding leaf
specification (or the AND of the two leaf specifications). -/
theorem productFilter_equals_betterFilter (items : List Product) (c : Color) (s : Size) :
    filter_by_color items c = betterFilter items (Specification.ColorSpecification c) ∧
    filter_by_size items s = betterFilter items (Specification.SizeSpecification s) ∧
    filter_by_size_and_color items s c =
      betterFilter items (Specification.AndSpecification
        [Specification.SizeSpecification s, Specification.ColorSpecification c]) := by
  refine ⟨?_, ?_, ?_⟩
  · induction items with
    | nil => rfl
    | cons x rest ih => simp only [filter_by_color, betterFilter, is_satisfied, ih]
  · induction items with
    | nil => rfl
    | cons x rest ih => simp only [filter_by_size, betterFilter, is_satisfied, ih]
  · induction items with
    | nil => rfl
    | cons x rest ih =>
      simp only [filter_by_size_and_color, betterFilter, is_satisfied, mapSat,
        List.all_cons, List.all_nil, id, Bool.and_true, ih]
      rw [Bool.and_comm (x.color == c) (x.size == s)]

/-- Claim C10: for a journal with entries `e1..en` and `1 <= k <= n`,
`remove_entry(k)` deletes the k-th entry (entry numbers are 1-based), so
the entries become `e1..e(k-1), e(k+1)..en`; consequently `add_entry(t)`
followed by `remove_entry(n+1)` restores the original entries list. -/
theorem journal_remove_entry_one_based (entries : List String) (k : Nat)
    (h1 : 1 ≤ k) (h2 : k ≤ entries.length) :
    remove_entry entries k = entries.take (k - 1) ++ entries.drop k ∧
    ∀ t : String, remove_entry (add_entry entries t) (entries.length + 1) = entries := by
  constructor
  · have hk : k - 1 + 1 = k := by omega
    rw [remove_entry, List.eraseIdx_eq_take_drop_succ, hk]
  · intro t
    rw [remove_entry, add_entry, Nat.add_sub_cancel,
      List.eraseIdx_eq_take_drop_succ, List.take_left]
    simp

/-- Witness for claim C10 at the concrete journal `["a", "b"]`, `k = 1`,
appended text `"c"`. -/
theorem journal_remove_entry_one_based_witness :
    remove_entry ["a", "b"] 1 = ["b"] ∧
    remove_entry (add_entry ["a", "b"] "c") 3 = ["a", "b"] := by
  have h := journal_remove_entry_one_based ["a", "b"] 1 (by decide) (by decide)
  refine ⟨?_, h.2 "c"⟩
  rw [h.1]
  rfl
